import Mathlib

/-!
# Verification of the ChatGPT-history search core

A shallow embedding, in Lean 4, of the algorithmic core of
`chatgpt_history_mcp.py`: the conversation-tree flattener, the export
parser, the TF-IDF search engine (tokenizer, indexer, query engine,
date filter) and the pagination helper.  Python floats are idealised as
exact numbers: timestamps as `ℚ`, TF-IDF scores as `ℝ` (the smoothed
IDF uses a natural logarithm).  Python dicts are modelled as insertion-
ordered association lists, matching CPython's documented dict ordering,
and Python's stable `sorted` is modelled by a stable insertion sort.
-/

namespace ChatGPTHistory

/-! ## Characters and strings

`str.lower()` is Python's full Unicode lowercasing, a string-level and
possibly one-to-many mapping.  It is modelled here per character by a
`Char → List Char` function that is exact on the ASCII range and on the
only two code points in all of Unicode whose lowercase contains an ASCII
letter or digit — U+0130 (LATIN CAPITAL LETTER I WITH DOT ABOVE, whose
lowercase is "i" followed by the combining dot U+0307) and U+212A
(KELVIN SIGN, whose lowercase is "k") — and the identity elsewhere.
Since no other code point's lowercase contains an ASCII alphanumeric
character and no code point lowercases to the empty string, the
tokenizer built on this mapping computes exactly the same token lists as
the source's `text.lower()` followed by the `[a-z0-9]+` scan, on every
input; only the images of the remaining non-ASCII characters (which the
tokenizer never keeps) are idealised as fixed points.  Python's
truthiness of strings ("" is falsy) is modelled where the source relies
on it.
-/

/-- Model of Python `str.lower` on one character, as a one-to-many
string-level mapping: exact on ASCII and on U+0130 and U+212A (the only
code points whose Unicode lowercase contains ASCII letters or digits),
identity on every other character. -/
def pyLowerChar (c : Char) : List Char :=
  if 'A' ≤ c ∧ c ≤ 'Z' then [Char.ofNat (c.toNat + 32)]
  else if c = '\u0130' then ['i', '\u0307']
  else if c = '\u212A' then ['k']
  else [c]

/-- Python `s.lower()` on an exploded string. -/
def pyLowerList (l : List Char) : List Char :=
  (l.map pyLowerChar).flatten

/-- Lowercase an entire string, as `text.lower()`. -/
def lowerStr (s : String) : String :=
  (pyLowerList s.toList).asString

/-- Characters matched by the tokenizer's character class `[a-z0-9]`. -/
def isTokChar (c : Char) : Bool :=
  ('a' ≤ c && c ≤ 'z') || ('0' ≤ c && c ≤ '9')

lemma length_dropWhile_le (p : Char → Bool) (l : List Char) :
    (l.dropWhile p).length ≤ l.length := by
  induction l with
  | nil => simp [List.dropWhile]
  | cons c cs ih =>
    by_cases h : p c
    · simp only [List.dropWhile, h]
      exact Nat.le_succ_of_le ih
    · simp [List.dropWhile, h]

/-- Model of `re.findall(r"[a-z0-9]+", ·)`: a single left-to-right scan.
`acc` holds the (reversed) characters of the match currently being
extended; a `[a-z0-9]` character extends it greedily, any other character
closes it.  `runsAux l []` is the list of maximal matches in `l`. -/
def runsAux : List Char → List Char → List (List Char)
  | [], acc => if acc.isEmpty then [] else [acc.reverse]
  | c :: cs, acc =>
    if isTokChar c then runsAux cs (c :: acc)
    else if acc.isEmpty then runsAux cs [] else acc.reverse :: runsAux cs []

def runs (l : List Char) : List (List Char) := runsAux l []

/-- Model of `SearchEngine._tokenize`: lowercase, then `re.findall(r"[a-z0-9]+", ·)`. -/
def tokenize (s : String) : List String :=
  (runs (pyLowerList s.toList)).map List.asString

/-- Modelled from the spec, for comparison with `tokenize`:
"extract maximal runs of ASCII letters and digits as tokens; all other
characters are separators and produce no tokens".  At the head of the
list, either the maximal alphanumeric prefix is one token and the rest of
the list is processed after it, or the head character is a separator and
is dropped. -/
def specMaximalRuns (l : List Char) : List (List Char) :=
  match l with
  | [] => []
  | c :: cs =>
    if isTokChar c then
      (c :: cs).takeWhile isTokChar :: specMaximalRuns ((c :: cs).dropWhile isTokChar)
    else
      specMaximalRuns cs
termination_by l.length
decreasing_by
  · simp only [List.dropWhile_cons, *, if_true, List.length_cons]
    exact Nat.lt_succ_of_le (length_dropWhile_le _ _)
  · simp

lemma specMaximalRuns_cons_neg (c : Char) (cs : List Char) (h : ¬ isTokChar c) :
    specMaximalRuns (c :: cs) = specMaximalRuns cs := by
  rw [specMaximalRuns]
  simp [h]

lemma runsAux_eq (l : List Char) :
    ∀ acc : List Char,
      runsAux l acc =
        if acc = [] then specMaximalRuns l
        else (acc.reverse ++ l.takeWhile isTokChar) ::
          specMaximalRuns (l.dropWhile isTokChar) := by
  induction l with
  | nil =>
    intro acc
    rcases acc with _ | ⟨a, as⟩ <;> simp [runsAux, specMaximalRuns]
  | cons c cs ih =>
    intro acc
    by_cases h : isTokChar c
    · rw [runsAux]
      simp only [h, if_true, ih (c :: acc)]
      rcases acc with _ | ⟨a, as⟩
      · rw [specMaximalRuns]
        simp [h, List.takeWhile_cons, List.dropWhile_cons]
      · simp [h, List.takeWhile_cons, List.dropWhile_cons]
    · rw [runsAux]
      simp only [h, Bool.false_eq_true, if_false]
      rcases acc with _ | ⟨a, as⟩
      · simp only [List.isEmpty_nil, if_true, ih []]
        simp [specMaximalRuns_cons_neg c cs h]
      · simp only [List.isEmpty_cons, if_false, ih []]
        simp [h, List.takeWhile_cons, List.dropWhile_cons,
          specMaximalRuns_cons_neg c cs h]

lemma runs_eq_specMaximalRuns : ∀ l : List Char, runs l = specMaximalRuns l := by
  intro l
  rw [runs, runsAux_eq l []]
  simp

/-- Python `needle in haystack` for strings, on exploded characters:
true iff `needle` occurs as a contiguous substring. -/
def listPrefix : List Char → List Char → Bool
  | [], _ => true
  | _ :: _, [] => false
  | a :: as, b :: bs => a = b && listPrefix as bs

def listInfix (needle : List Char) : List Char → Bool
  | [] => listPrefix needle []
  | c :: cs => listPrefix needle (c :: cs) || listInfix needle cs

/-- Python `query_lower in title_lower`. -/
def strIn (needle haystack : String) : Bool :=
  listInfix needle.toList haystack.toList

/-- Python whitespace characters recognised by `str.strip()` (ASCII part). -/
def isPyWs (c : Char) : Bool :=
  c = ' ' || c = '\t' || c = '\n' || c = '\x0d' || c = '\x0b' || c = '\x0c'

/-- Python `text.strip()` truthiness: `s.strip()` is non-empty iff some
character of `s` is not whitespace.  `isBlank s = true` models
`not s.strip()`. -/
def isBlank (s : String) : Bool :=
  s.toList.all isPyWs

/-- Python `s.strip()` (used by `_parse_date` before parsing). -/
def pyStrip (s : String) : List Char :=
  ((s.toList.dropWhile isPyWs).reverse.dropWhile isPyWs).reverse

/-! ## Data model

`Message` and `Conversation` from the `@dataclass` definitions.
Timestamps (Python floats from JSON) are modelled as exact rationals. -/

structure Message where
  role : String
  text : String
  timestamp : Option ℚ := none
deriving DecidableEq, Repr

structure Conversation where
  id : String
  title : String
  create_time : Option ℚ := none
  update_time : Option ℚ := none
  messages : List Message := []
  model_slug : String := ""
deriving DecidableEq, Repr

def convDefault : Conversation :=
  { id := "", title := "" }

/-- Model of `Conversation.full_text`: `" ".join([self.title] + [m.text for m in self.messages])`. -/
def fullText (c : Conversation) : String :=
  String.intercalate " " (c.title :: c.messages.map Message.text)

/-- The role enumeration accepted by the tree flattener
(`("user", "assistant", "system", "tool")`). -/
def allowedRoles : List String := ["user", "assistant", "system", "tool"]

/-! ## Raw export shapes

The dynamic JSON shapes consumed by `parse_chatgpt_export` and
`_flatten_message_tree`, restricted to the fields the source reads.
A content payload is either a plain string or an object carrying a
`parts` list (`{"parts": [...]}`, a non-empty dict, hence truthy);
each part is either a plain string or an object with an optional
`text` field. -/

inductive RawPart where
  | pstr (s : String)
  | pobj (text : Option String)
deriving DecidableEq, Repr

inductive RawContent where
  | cstr (s : String)
  | cparts (parts : List RawPart)
deriving DecidableEq, Repr

/-- Python truthiness of `msg_data.get("content")`: a missing content is
falsy, an empty string is falsy, a `{"parts": ...}` object is a non-empty
dict and is truthy. -/
def contentTruthy : Option RawContent → Bool
  | none => false
  | some (.cstr s) => !(s = "")
  | some (.cparts _) => true

/-- Model of `_extract_text`: a plain string is used as-is; otherwise the string
parts and the `text` fields of object parts are kept, in order, and
joined with newlines. -/
def extractText : RawContent → String
  | .cstr s => s
  | .cparts parts =>
      String.intercalate "\n"
        (parts.filterMap fun p =>
          match p with
          | .pstr s => some s
          | .pobj t => t)

structure RawAuthor where
  role : Option String := none
deriving DecidableEq, Repr

/-- The message payload of a tree node (`node["message"]`). -/
structure RawMsg where
  author : Option RawAuthor := none
  content : Option RawContent := none
  create_time : Option ℚ := none
deriving DecidableEq, Repr

/-- One node of the export's `mapping` graph. -/
structure RawNode where
  parent : Option String := none
  children : List String := []
  message : Option RawMsg := none
deriving DecidableEq, Repr

/-- A `mapping` is a dict from node id to node; modelled as an
insertion-ordered association list. -/
abbrev Mapping := List (String × RawNode)

/-- Model of `mapping.get(current_id, \x7b\x7d)`. -/
def getNode (m : Mapping) (id : String) : RawNode :=
  match m.lookup id with
  | some n => n
  | none => {}

/-- The node-id keys of the mapping (`parent not in mapping`). -/
def mapKeys (m : Mapping) : List String := m.map Prod.fst

/-- Root discovery: the first node, in the mapping's insertion order,
whose `parent` is `None` or names a node id absent from the mapping. -/
def rootOf (m : Mapping) : Option String :=
  (m.find? fun p =>
    match p.2.parent with
    | none => true
    | some par => !(mapKeys m).contains par).map Prod.fst

/-- Model of `msg_data.get("author", \x7b\x7d).get("role", "unknown")`. -/
def authorRole (md : RawMsg) : String :=
  match md.author with
  | none => "unknown"
  | some a => a.role.getD "unknown"

/-- The per-node emission step of `_flatten_message_tree` (lines 172-184):
a node contributes one `Message` iff it has a truthy message payload with
truthy content, its extracted text is not all-whitespace, and its author
role is one of the four allowed roles. -/
def emitAt (m : Mapping) (id : String) : Option Message :=
  match (getNode m id).message with
  | none => none
  | some md =>
    match md.content with
    | none => none
    | some content =>
      if contentTruthy (some content) then
        if !isBlank (extractText content) && allowedRoles.contains (authorRole md) then
          some { role := authorRole md, text := extractText content,
                 timestamp := md.create_time }
        else none
      else none

/-- The first-child descent: `children[0] if children else None`,
with the `while current_id` loop exiting on `None` and on the falsy
empty-string id.  `fuel` bounds the walk; `mapLength + 1` steps suffice
for any acyclic mapping (the walk visits each key at most once). -/
def chainIds (m : Mapping) : ℕ → Option String → List String
  | 0, _ => []
  | _, none => []
  | fuel + 1, some id =>
      if id = "" then []
      else id :: chainIds m fuel (getNode m id).children.head?

/-- The node ids visited by `_flatten_message_tree`'s walk. -/
def pathIds (m : Mapping) : List String :=
  chainIds m (m.length + 1) (rootOf m)

/-- The message-emitting walk of `_flatten_message_tree`. -/
def walkMsgs (m : Mapping) : ℕ → Option String → List Message
  | 0, _ => []
  | _, none => []
  | fuel + 1, some id =>
      if id = "" then []
      else
        match emitAt m id with
        | some msg => msg :: walkMsgs m fuel (getNode m id).children.head?
        | none => walkMsgs m fuel (getNode m id).children.head?

/-- Model of `_flatten_message_tree`: find the root, then walk first children. -/
def flattenMessageTree (m : Mapping) : List Message :=
  walkMsgs m (m.length + 1) (rootOf m)

/-! ## Stable descending sort

Python's `sorted(..., key=f, reverse=True)` and `list.sort(key=f,
reverse=True)` are stable: elements with equal keys keep their original
relative order.  They are modelled by a stable insertion sort: each
element is inserted in front of the first already-placed element with a
key `≤` its own, so it lands after every strictly greater key and after
every equal key that occurred earlier in the input. -/

section StableSort

variable {α : Type} {β : Type} [LinearOrder β]

def insortBy (f : α → β) (x : α) : List α → List α
  | [] => [x]
  | y :: ys => if f x < f y then y :: insortBy f x ys else x :: y :: ys

def sortDescBy (f : α → β) : List α → List α
  | [] => []
  | x :: xs => insortBy f x (sortDescBy f xs)

lemma mem_insortBy (f : α → β) (x z : α) :
    ∀ l : List α, z ∈ insortBy f x l ↔ z = x ∨ z ∈ l := by
  intro l
  induction l with
  | nil => simp [insortBy]
  | cons y ys ih =>
    by_cases h : f x < f y
    · simp only [insortBy, h, if_true, List.mem_cons, ih]
      tauto
    · simp only [insortBy, h, if_false, List.mem_cons]

lemma insortBy_perm (f : α → β) (x : α) :
    ∀ l : List α, (insortBy f x l).Perm (x :: l) := by
  intro l
  induction l with
  | nil => simp [insortBy]
  | cons y ys ih =>
    by_cases h : f x < f y
    · simp only [insortBy, h, if_true]
      exact (ih.cons y).trans (List.Perm.swap x y ys)
    · simp [insortBy, h]

lemma sortDescBy_perm (f : α → β) :
    ∀ l : List α, (sortDescBy f l).Perm l := by
  intro l
  induction l with
  | nil => simp [sortDescBy]
  | cons x xs ih =>
    exact ((insortBy_perm f x (sortDescBy f xs)).trans (ih.cons x))

lemma insortBy_sorted (f : α → β) (x : α) :
    ∀ l : List α, l.Pairwise (fun a b => f b ≤ f a) →
      (insortBy f x l).Pairwise (fun a b => f b ≤ f a) := by
  intro l
  induction l with
  | nil => simp [insortBy]
  | cons y ys ih =>
    intro hp
    rw [List.pairwise_cons] at hp
    by_cases h : f x < f y
    · simp only [insortBy, h, if_true]
      rw [List.pairwise_cons]
      refine ⟨?_, ih hp.2⟩
      intro z hz
      rcases (mem_insortBy f x z ys).mp hz with rfl | hz
      · exact le_of_lt h
      · exact hp.1 z hz
    · simp only [insortBy, h, if_false]
      rw [List.pairwise_cons]
      refine ⟨?_, List.pairwise_cons.mpr hp⟩
      intro z hz
      rcases List.mem_cons.mp hz with rfl | hz
      · exact not_lt.mp h
      · exact le_trans (hp.1 z hz) (not_lt.mp h)

lemma sortDescBy_sorted (f : α → β) :
    ∀ l : List α, (sortDescBy f l).Pairwise (fun a b => f b ≤ f a) := by
  intro l
  induction l with
  | nil => simp [sortDescBy]
  | cons x xs ih => exact insortBy_sorted f x _ ih

/-- Stability of the insertion step: any pairwise property that holds
conditionally on equal keys survives insertion, because the inserted
element only ever jumps over strictly greater keys. -/
lemma insortBy_stable (f : α → β) (P : α → α → Prop) (x : α) :
    ∀ l : List α, l.Pairwise (fun a b => f a = f b → P a b) →
      (∀ y ∈ l, f x = f y → P x y) →
      (insortBy f x l).Pairwise (fun a b => f a = f b → P a b) := by
  intro l
  induction l with
  | nil =>
    intro _ _
    simp [insortBy]
  | cons y ys ih =>
    intro hp hx
    rw [List.pairwise_cons] at hp
    by_cases h : f x < f y
    · simp only [insortBy, h, if_true]
      rw [List.pairwise_cons]
      refine ⟨?_, ih hp.2 (fun z hz => hx z (List.mem_cons_of_mem y hz))⟩
      intro z hz heq
      rcases (mem_insortBy f x z ys).mp hz with rfl | hz
      · exact absurd heq.symm (ne_of_lt h)
      · exact hp.1 z hz heq
    · simp only [insortBy, h, if_false]
      rw [List.pairwise_cons]
      exact ⟨hx, List.pairwise_cons.mpr hp⟩

lemma sortDescBy_stable (f : α → β) (P : α → α → Prop) :
    ∀ l : List α, l.Pairwise (fun a b => f a = f b → P a b) →
      (sortDescBy f l).Pairwise (fun a b => f a = f b → P a b) := by
  intro l
  induction l with
  | nil => simp [sortDescBy]
  | cons x xs ih =>
    intro hp
    rw [List.pairwise_cons] at hp
    refine insortBy_stable f P x _ (ih hp.2) ?_
    intro y hy
    exact hp.1 y ((sortDescBy_perm f xs).mem_iff.mp hy)

/-- Unfolding helper used when evaluating the sort on a concrete
two-element score list with equal scores. -/
lemma insortBy_not_lt (f : α → β) (x y : α) (ys : List α) (h : ¬ f x < f y) :
    insortBy f x (y :: ys) = x :: y :: ys := by
  simp [insortBy, h]

end StableSort

/-- Every list is pairwise "earlier element, later element appear in this
order as a sublist". -/
lemma pairwise_pair_sublist :
    ∀ l : List α, l.Pairwise (fun a b => List.Sublist [a, b] l) := by
  intro l
  induction l with
  | nil => simp
  | cons x xs ih =>
    rw [List.pairwise_cons]
    constructor
    · intro y hy
      exact (List.singleton_sublist.mpr hy).cons₂ x
    · exact ih.imp (fun h => h.cons x)

/-! ## Export parser -/

/-- One element of a flat `messages` array (the non-tree fallback shape).
A JSON `null` element is modelled as `Option.none` at the list level. -/
structure RawFlatMsg where
  role : Option String := none
  author : Option RawAuthor := none
  content : Option RawContent := none
  create_time : Option ℚ := none
deriving DecidableEq, Repr

/-- One conversation entry of `conversations.json`, restricted to the
fields the source reads. -/
structure RawEntry where
  id : Option String := none
  conversation_id : Option String := none
  title : Option String := none
  create_time : Option ℚ := none
  update_time : Option ℚ := none
  default_model_slug : Option String := none
  mapping : Mapping := []
  messages : List (Option RawFlatMsg) := []
deriving DecidableEq, Repr

/-- The fallback loop (lines 133-141): each flat message with truthy
content and non-blank extracted text becomes a `Message`; the role is
`msg.get("role", msg.get("author", {}).get("role", "unknown"))` with NO
restriction to the four-role enumeration. -/
def flatMessages (msgs : List (Option RawFlatMsg)) : List Message :=
  msgs.filterMap fun om =>
    match om with
    | none => none
    | some msg =>
      if contentTruthy msg.content then
        match msg.content with
        | none => none
        | some content =>
          let text := extractText content
          if !isBlank text then
            some { role := msg.role.getD
                     ((msg.author.map (fun a => a.role.getD "unknown")).getD "unknown"),
                   text := text,
                   timestamp := msg.create_time }
          else none
      else none

/-- Conversion of one entry (lines 118-141). -/
def convOfEntry (e : RawEntry) : Conversation :=
  { id := e.id.getD (e.conversation_id.getD ""),
    title := e.title.getD "Untitled",
    create_time := e.create_time,
    update_time := e.update_time,
    model_slug := e.default_model_slug.getD "",
    messages :=
      if e.mapping.isEmpty then flatMessages e.messages
      else flattenMessageTree e.mapping }

/-- Sort key of the final `conversations.sort`: `c.create_time or 0`
(a missing or zero create time both yield `0`). -/
def convKey (c : Conversation) : ℚ := c.create_time.getD 0

/-- Model of `parse_chatgpt_export` after JSON decoding: convert each entry, keep
only conversations with at least one message, sort newest first
(stable, descending by `create_time or 0`). -/
def parseExport (entries : List RawEntry) : List Conversation :=
  sortDescBy convKey
    ((entries.map convOfEntry).filter fun c => !c.messages.isEmpty)

/-! ## Pagination (`chatgpt_list_conversations`, lines 535-538) -/

/-- Model of the slice: `total = len(...)`; `start = min(offset, total)`;
`end = min(start + limit, total)`; `page = lst[start:end]`. -/
def listPage (convs : List Conversation) (offset limit : ℕ) :
    List Conversation × ℕ :=
  let total := convs.length
  let start := min offset total
  let stop := min (start + limit) total
  ((convs.drop start).take (stop - start), total)

/-! ## Date parsing (`_parse_date`) -/

def isDigit (c : Char) : Bool := '0' ≤ c && c ≤ '9'

def digitsVal (l : List Char) : ℕ :=
  l.foldl (fun acc c => 10 * acc + (c.toNat - '0'.toNat)) 0

def isLeap (y : ℕ) : Bool := (y % 4 = 0 && !(y % 100 = 0)) || y % 400 = 0

def daysInMonth (y m : ℕ) : ℕ :=
  if m = 2 then (if isLeap y then 29 else 28)
  else if m = 4 || m = 6 || m = 9 || m = 11 then 30
  else 31

/-- Days from 1970-01-01 to y-m-d in the proleptic Gregorian calendar
(civil-days algorithm); valid for `1 ≤ y ≤ 9999`. -/
def daysFromCivil (y m d : ℕ) : ℤ :=
  let y2 : ℕ := if m ≤ 2 then y - 1 else y
  let era : ℕ := y2 / 400
  let yoe : ℕ := y2 - era * 400
  let doy : ℕ := (153 * (if 2 < m then m - 3 else m + 9) + 2) / 5 + d - 1
  let doe : ℕ := yoe * 365 + yoe / 4 - yoe / 100 + doy
  (era * 146097 + doe : ℤ) - 719468

/-- The textual shape accepted by `strptime(s, "%Y-%m-%d")`: exactly four
digits for `%Y`, one or two digits for `%m` and `%d`, separated by
dashes, with nothing left over. -/
def parseYMD (l : List Char) : Option (ℕ × ℕ × ℕ) :=
  let ys := l.take 4
  let rest := l.drop 4
  if ys.length = 4 && ys.all isDigit then
    match rest with
    | '-' :: rest2 =>
      let ms := rest2.takeWhile isDigit
      let rest3 := rest2.dropWhile isDigit
      if ms.length = 1 || ms.length = 2 then
        match rest3 with
        | '-' :: rest4 =>
          let ds := rest4.takeWhile isDigit
          let rest5 := rest4.dropWhile isDigit
          if (ds.length = 1 || ds.length = 2) && rest5.isEmpty then
            some (digitsVal ys, digitsVal ms, digitsVal ds)
          else none
        | _ => none
      else none
    | _ => none
  else none

/-- Model of `_parse_date`: `datetime.strptime(s.strip(), "%Y-%m-%d")` at UTC
midnight, as epoch seconds; `None` on any `ValueError` (bad shape, month
or day out of range for the proleptic Gregorian calendar, year outside
`datetime`'s `1..9999`). -/
def parseDate (s : String) : Option ℚ :=
  match parseYMD (pyStrip s) with
  | none => none
  | some (y, m, d) =>
    if 1 ≤ y && y ≤ 9999 && 1 ≤ m && m ≤ 12 && 1 ≤ d && d ≤ daysInMonth y m then
      some ((86400 * daysFromCivil y m d : ℤ) : ℚ)
    else none

/-! ## Search engine

`SearchEngine` holds the finalized Collection.  The inverted index and
IDF table built by `_build_index` are dicts keyed by term; their final
contents are deterministic functions of the Collection (insertion order
of the dicts is irrelevant to every lookup the query engine performs),
so they are modelled as functions:

* `docFreq E t` — the final value of `doc_freq[t]`: the loop adds `1`
  for each conversation whose token set contains `t`;
* `idf E t` — `self._idf.get(t, 0)`: the smoothed IDF for indexed terms
  and the lookup default `0` for terms with no postings;
* `postings E t` — `self._index.get(t, [])`: the posting list for `t`,
  in increasing conversation-index order, exactly as built by the
  enumeration loop (document `idx` is appended to `t`'s list iff its
  term count for `t` is non-zero).

The query-time score dict, whose insertion order the stable sort
observes, is modelled exactly, as an insertion-ordered association
list. -/

structure SearchEngine where
  conversations : List Conversation
deriving DecidableEq, Repr

namespace SearchEngine

def nDocs (E : SearchEngine) : ℕ := E.conversations.length

/-- Tokens of document `idx` (`self._tokenize(conv.full_text)`). -/
def docTokens (E : SearchEngine) (idx : ℕ) : List String :=
  tokenize (fullText (E.conversations.getD idx convDefault))

/-- Final value of `doc_freq[t]`: the number of conversations whose
token list contains `t`. -/
def docFreq (E : SearchEngine) (t : String) : ℕ :=
  E.conversations.countP fun c => t ∈ tokenize (fullText c)

/-- Model of `self._idf.get(t, 0)`: `log((N + 1) / (df + 1)) + 1` for indexed
terms (`df ≥ 1`), `0` for absent terms. -/
noncomputable def idf (E : SearchEngine) (t : String) : ℝ :=
  if E.docFreq t = 0 then 0
  else Real.log (((E.nDocs + 1 : ℕ) : ℝ) / ((E.docFreq t + 1 : ℕ) : ℝ)) + 1

/-- Model of `total_tokens = sum(tf.values()) or 1` for document `idx`. -/
def totalTok (E : SearchEngine) (idx : ℕ) : ℕ :=
  if (E.docTokens idx).length = 0 then 1 else (E.docTokens idx).length

/-- Model of `self._index.get(t, [])`: pairs `(idx, count/total)` for every
document whose count of `t` is non-zero, in increasing `idx` order. -/
noncomputable def postings (E : SearchEngine) (t : String) : List (ℕ × ℝ) :=
  (List.range E.nDocs).filterMap fun idx =>
    if (E.docTokens idx).count t ≠ 0 then
      some (idx, (((E.docTokens idx).count t : ℕ) : ℝ) / ((E.totalTok idx : ℕ) : ℝ))
    else none

end SearchEngine

/-! ### The query-time score dict -/

/-- Model of `scores[k] = v` on an insertion-ordered dict: overwrite in place if
the key is present, else append at the end (CPython dict semantics). -/
def updD : List (ℕ × ℝ) → ℕ → ℝ → List (ℕ × ℝ)
  | [], k, v => [(k, v)]
  | (k2, v2) :: rest, k, v =>
      if k2 = k then (k, v) :: rest else (k2, v2) :: updD rest k v

/-- Model of `scores.get(k, d)`. -/
def lookupD : List (ℕ × ℝ) → ℕ → ℝ → ℝ
  | [], _, d => d
  | (k2, v2) :: rest, k, d => if k2 = k then v2 else lookupD rest k d

namespace SearchEngine

/-- Inner accumulation loop: `for idx, tf in self._index.get(token, []):
scores[idx] = scores.get(idx, 0) + tf * idf`. -/
def postLoop (idfv : ℝ) : List (ℕ × ℝ) → List (ℕ × ℝ) → List (ℕ × ℝ)
  | [], sc => sc
  | p :: ps, sc => postLoop idfv ps (updD sc p.1 (lookupD sc p.1 0 + p.2 * idfv))

/-- Outer accumulation loop over the query tokens. -/
noncomputable def scoreLoop (E : SearchEngine) : List String → List (ℕ × ℝ) → List (ℕ × ℝ)
  | [], sc => sc
  | t :: ts, sc => E.scoreLoop ts (postLoop (E.idf t) (E.postings t) sc)

/-- The score dict after the TF-IDF accumulation stage (lines 273-277). -/
noncomputable def tokenizedScores (E : SearchEngine) (query : String) : List (ℕ × ℝ) :=
  E.scoreLoop (tokenize query) []

/-- Title-boost loop (lines 280-283): `for idx, conv in
enumerate(self.conversations): if query_lower in conv.title.lower():
scores[idx] = scores.get(idx, 0) * 2.0`. -/
def boostLoop (queryLower : String) : List Conversation → ℕ → List (ℕ × ℝ) → List (ℕ × ℝ)
  | [], _, sc => sc
  | c :: rest, i, sc =>
      boostLoop queryLower rest (i + 1)
        (if strIn queryLower (lowerStr c.title) then updD sc i (lookupD sc i 0 * 2) else sc)

/-- The score dict after the title boost. -/
noncomputable def boostedScores (E : SearchEngine) (query : String) : List (ℕ × ℝ) :=
  boostLoop (lowerStr query) E.conversations 0 (E.tokenizedScores query)

end SearchEngine

/-- Truthiness test `if ts_from ...` / `if ts_to ...` on an optional
float: `None` and `0.0` are falsy. -/
def tsTruthy : Option ℚ → Bool
  | none => false
  | some v => !(v = 0)

/-- Model of `ts = conv.create_time or 0` (a missing — or zero — create time
yields `0`). -/
def tsOf (c : Conversation) : ℚ := c.create_time.getD 0

/-- The per-result date test of the ranking loop (lines 294-297): the
conversation is kept unless a truthy parsed bound strictly excludes it. -/
def keepB (tsF tsT : Option ℚ) (ts : ℚ) : Bool :=
  !(tsTruthy tsF && ts < tsF.getD 0) && !(tsTruthy tsT && tsT.getD 0 < ts)

/-- The ranking loop (lines 290-301): walk the sorted score list, skip
date-filtered entries, stop once `limit` results are collected (Python
appends first and then breaks when `len(results) >= limit`, so even
`limit = 0` yields one result). -/
def rankLoop (keep : ℕ × ℝ → Bool) : ℕ → List (ℕ × ℝ) → List (ℕ × ℝ)
  | _, [] => []
  | lim, p :: rest =>
      if keep p then
        if lim ≤ 1 then [p] else p :: rankLoop keep (lim - 1) rest
      else rankLoop keep lim rest

namespace SearchEngine

/-- Model of `ts_from = _parse_date(date_from) if date_from else None` (an absent
or empty — falsy — string bound skips parsing). -/
def parsedBound : Option String → Option ℚ
  | none => none
  | some s => if s = "" then none else parseDate s

/-- Model of `SearchEngine.search`, producing `(conversation_index, score)` pairs:
tokenize the query (empty token list returns `[]`), accumulate TF-IDF
scores, apply the title boost, stable-sort descending by score, then
date-filter and truncate in one pass. -/
noncomputable def searchIdx (E : SearchEngine) (query : String) (limit : ℕ)
    (date_from date_to : Option String) : List (ℕ × ℝ) :=
  if tokenize query = [] then []
  else
    rankLoop
      (fun p => keepB (parsedBound date_from) (parsedBound date_to)
        (tsOf (E.conversations.getD p.1 convDefault)))
      limit
      (sortDescBy Prod.snd (E.boostedScores query))

/-- Model of `SearchEngine.search`: the ranked `(conversation, score)` list. -/
noncomputable def search (E : SearchEngine) (query : String) (limit : ℕ)
    (date_from date_to : Option String) : List (Conversation × ℝ) :=
  (E.searchIdx query limit date_from date_to).map
    fun p => (E.conversations.getD p.1 convDefault, p.2)

end SearchEngine

/-! ## Flattener lemmas -/

lemma walkMsgs_eq_filterMap (m : Mapping) :
    ∀ (fuel : ℕ) (cur : Option String),
      walkMsgs m fuel cur = (chainIds m fuel cur).filterMap (emitAt m) := by
  intro fuel
  induction fuel with
  | zero => intro cur; cases cur <;> simp [walkMsgs, chainIds]
  | succ fuel ih =>
    intro cur
    cases cur with
    | none => simp [walkMsgs, chainIds]
    | some id =>
      by_cases hid : id = ""
      · simp [walkMsgs, chainIds, hid]
      · rw [walkMsgs, chainIds]
        simp only [hid, if_false, List.filterMap_cons]
        cases hemit : emitAt m id with
        | none => simp [hemit, ih]
        | some msg => simp [hemit, ih]

lemma flattenMessageTree_eq_filterMap (m : Mapping) :
    flattenMessageTree m = (pathIds m).filterMap (emitAt m) :=
  walkMsgs_eq_filterMap m (m.length + 1) (rootOf m)

lemma chainIds_head (m : Mapping) :
    ∀ (fuel : ℕ) (cur : Option String) (b : String),
      (chainIds m fuel cur).head? = some b → cur = some b := by
  intro fuel cur b
  cases fuel with
  | zero => simp [chainIds]
  | succ fuel =>
    cases cur with
    | none => simp [chainIds]
    | some id =>
      by_cases hid : id = ""
      · simp [chainIds, hid]
      · rw [chainIds]
        intro h
        simp only [hid, if_false, List.head?_cons, Option.some_inj] at h
        rw [h]

lemma chainIds_chain (m : Mapping) :
    ∀ (fuel : ℕ) (cur : Option String),
      (chainIds m fuel cur).Chain'
        (fun a b => (getNode m a).children.head? = some b) := by
  intro fuel
  induction fuel with
  | zero => intro cur; cases cur <;> simp [chainIds]
  | succ fuel ih =>
    intro cur
    cases cur with
    | none => simp [chainIds]
    | some id =>
      by_cases hid : id = ""
      · simp [chainIds, hid]
      · rw [chainIds]
        simp only [hid, if_false]
        rw [List.chain'_cons']
        refine ⟨?_, ih _⟩
        intro b hb
        exact (chainIds_head m fuel _ b (by simpa using hb)).symm ▸ rfl

lemma emitAt_role (m : Mapping) (id : String) (msg : Message)
    (h : emitAt m id = some msg) : msg.role ∈ allowedRoles := by
  simp only [emitAt] at h
  rcases hmd : (getNode m id).message with _ | md
  · simp [hmd] at h
  · simp only [hmd] at h
    rcases hc : md.content with _ | content
    · simp [hc] at h
    · simp only [hc] at h
      by_cases hct : contentTruthy (some content) = true
      · rw [if_pos hct] at h
        by_cases hcond :
            (!isBlank (extractText content) && allowedRoles.contains (authorRole md)) = true
        · rw [if_pos hcond] at h
          obtain rfl := Option.some.inj h
          have hrole := ((Bool.and_eq_true _ _).mp hcond).2
          simpa using hrole
        · rw [if_neg hcond] at h; simp at h
      · rw [if_neg hct] at h; simp at h
/-! ## Pagination lemma shared by C8 and C9 -/

lemma listPage_eq (convs : List Conversation) (off lim : ℕ) :
    listPage convs off lim = ((convs.drop off).take lim, convs.length) := by
  simp only [listPage]
  by_cases h : off ≤ convs.length
  · rw [min_eq_left h]
    rcases le_or_lt (off + lim) convs.length with h2 | h2
    · rw [min_eq_left h2]
      congr 2
      omega
    · rw [min_eq_right (le_of_lt h2)]
      have hlen : (convs.drop off).length = convs.length - off := List.length_drop off convs
      congr 1
      rw [List.take_of_length_le (by omega), List.take_of_length_le (by omega)]
  · rw [min_eq_right (le_of_not_le h)]
    have hnil : convs.drop off = [] := List.drop_eq_nil_of_le (le_of_not_le h)
    rw [List.drop_length, hnil]
    simp

/-! ## Concrete exhibits for the flattener claims -/

/-- A mapping whose root has two children: the first-child subtree holds
"hello A", the discarded sibling holds "hello B". -/
def exM6 : Mapping :=
  [("r", { parent := none, children := ["a", "b"], message := none }),
   ("a", { parent := some "r", children := [],
           message := some { author := some { role := some "user" },
                             content := some (.cstr "hello A"),
                             create_time := none } }),
   ("b", { parent := some "r", children := [],
           message := some { author := some { role := some "user" },
                             content := some (.cstr "hello B"),
                             create_time := none } })]

/-- A one-node mapping emitting a single user message. -/
def exM7 : Mapping :=
  [("n", { parent := none, children := [],
           message := some { author := some { role := some "user" },
                             content := some (.cstr "hi"),
                             create_time := none } })]

/-- A flat-fallback entry whose message carries the out-of-enumeration
role "banana". -/
def exE7 : RawEntry :=
  { messages := [some { role := some "banana", author := none,
                        content := some (.cstr "hi"), create_time := none }] }

/-! ## Claim C4 (corrected) -/

/-- C4 (amended): `tokenize` applies Python's Unicode lowercasing and
then returns exactly the maximal runs of ASCII letters and digits of the
lowered text, in order — so a character contributes to a token iff its
lowercase contains ASCII letters or digits — and the two spec examples
hold.  (Most non-ASCII characters are separators, but not all: see the
counterexample.) -/
theorem C4_tokenize_maximal_runs :
    (∀ s : String,
      tokenize s = (specMaximalRuns (pyLowerList s.toList)).map List.asString)
    ∧ tokenize "Hello, World! 42" = ["hello", "world", "42"]
    ∧ tokenize "" = [] := by
  refine ⟨?_, by decide, by decide⟩
  intro s
  unfold tokenize
  rw [runs_eq_specMaximalRuns]

/-- Counterexample to C4 as stated: the code points U+212A (KELVIN
SIGN) and U+0130 (LATIN CAPITAL LETTER I WITH DOT ABOVE) are non-ASCII,
yet Python lowercases them to strings containing the ASCII letters "k"
and "i", so the tokenizer emits tokens for them — they do not act as
separators. -/
theorem C4_nonascii_counterexample :
    tokenize "\u212A" = ["k"]
    ∧ tokenize "\u0130" = ["i"]
    ∧ (∀ c ∈ "\u212A".toList, 128 ≤ c.toNat)
    ∧ (∀ c ∈ "\u0130".toList, 128 ≤ c.toNat) :=
  ⟨by decide, by decide, by decide, by decide⟩

/-! ## Claim C6 -/

/-- C6: the flattened sequence is exactly the per-node emission mapped
over the first-child path from the root (a node emits only for an
allowed role and non-blank text, by `emitAt`'s definition); the path
starts at the root and each step goes to the head of the `children`
list; and on a concrete root with children `[a, b]`, only the
`a`-subtree's message appears. -/
theorem C6_first_child_path :
    (∀ m : Mapping, flattenMessageTree m = (pathIds m).filterMap (emitAt m))
    ∧ (∀ (m : Mapping) (r : String), rootOf m = some r → r ≠ "" →
        (pathIds m).head? = some r)
    ∧ (∀ m : Mapping,
        (pathIds m).Chain' (fun a b => (getNode m a).children.head? = some b))
    ∧ flattenMessageTree exM6 =
        [{ role := "user", text := "hello A", timestamp := none }]
    ∧ "hello B" ∉ (flattenMessageTree exM6).map Message.text := by
  refine ⟨?_, ?_, ?_, by decide, by decide⟩
  · intro m
    exact flattenMessageTree_eq_filterMap m
  · intro m r hroot hne
    unfold pathIds
    rw [hroot]
    rw [chainIds]
    simp [hne]
  · intro m
    exact chainIds_chain m _ _

/-- Witness for C6's hypotheses at the concrete mapping `exM6`. -/
theorem C6_first_child_path_witness :
    rootOf exM6 = some "r" ∧ ("r" : String) ≠ "" ∧ (pathIds exM6).head? = some "r" :=
  ⟨by decide, by decide, C6_first_child_path.2.1 exM6 "r" (by decide) (by decide)⟩

/-! ## Claim C7 (corrected) -/

/-- C7 (amended): every `Message` produced by the tree flattener has a
role in the four-element enumeration.  (The flat messages-array fallback
does not restrict roles: see the counterexample.) -/
theorem C7_flattener_roles (m : Mapping) (msg : Message)
    (hmem : msg ∈ flattenMessageTree m) : msg.role ∈ allowedRoles := by
  rw [flattenMessageTree_eq_filterMap] at hmem
  obtain ⟨id, _, hemit⟩ := List.mem_filterMap.mp hmem
  exact emitAt_role m id msg hemit

/-- Witness for C7 at the concrete one-node mapping `exM7`. -/
theorem C7_flattener_roles_witness :
    ({ role := "user", text := "hi", timestamp := none } : Message)
      ∈ flattenMessageTree exM7
    ∧ ({ role := "user", text := "hi", timestamp := none } : Message).role
      ∈ allowedRoles :=
  ⟨by decide, C7_flattener_roles exM7 _ (by decide)⟩

/-- Counterexample to C7 as stated: a flat-fallback entry yields a
Collection whose single Message has role "banana", outside the
enumeration. -/
theorem C7_roles_counterexample :
    (parseExport [exE7]).map (fun c => c.messages.map Message.role) = [["banana"]]
    ∧ "banana" ∉ allowedRoles :=
  ⟨by decide, by decide⟩

/-! ## Claims C8 and C9 -/

/-- A five-conversation collection for the pagination examples. -/
def exFive : List Conversation :=
  [{ id := "c0", title := "t0" }, { id := "c1", title := "t1" },
   { id := "c2", title := "t2" }, { id := "c3", title := "t3" },
   { id := "c4", title := "t4" }]

/-- C8 (amended): the parsed Collection is sorted descending by
`create_time or 0` (a conversation lacking a create time sorts as if it
were zero), and pagination pages are contiguous slices of that same
ordering.  (The score tie-break clause is amended: see the
counterexample for the search tie-break.) -/
theorem C8_collection_order :
    (∀ entries : List RawEntry,
      (parseExport entries).Pairwise (fun a b => convKey b ≤ convKey a))
    ∧ (∀ (entries : List RawEntry) (off lim : ℕ),
        listPage (parseExport entries) off lim =
          (((parseExport entries).drop off).take lim, (parseExport entries).length)) := by
  constructor
  · intro entries
    exact sortDescBy_sorted convKey _
  · intro entries off lim
    exact listPage_eq _ off lim

/-- C9: `list_page` returns the contiguous slice of the Collection
starting at `offset` with at most `limit` elements together with the
total, an offset beyond the total yields an empty page, and the two
concrete five-item examples hold. -/
theorem C9_pagination :
    (∀ (convs : List Conversation) (off lim : ℕ),
      listPage convs off lim = ((convs.drop off).take lim, convs.length))
    ∧ (∀ (convs : List Conversation) (off lim : ℕ), convs.length ≤ off →
      (listPage convs off lim).1 = [])
    ∧ listPage exFive 2 2 =
        ([{ id := "c2", title := "t2" }, { id := "c3", title := "t3" }], 5)
    ∧ listPage exFive 10 2 = ([], 5) := by
  refine ⟨listPage_eq, ?_, by decide, by decide⟩
  intro convs off lim h
  rw [listPage_eq]
  simp [List.drop_eq_nil_of_le h]

/-- Witness for C9 at the five-item collection: an offset beyond the
total yields an empty page. -/
theorem C9_pagination_witness :
    exFive.length ≤ 10 ∧ (listPage exFive 10 2).1 = [] :=
  ⟨by decide, C9_pagination.2.1 exFive 10 2 (by decide)⟩

/-! ## Score-dict lemmas -/

lemma lookupD_updD_self (k : ℕ) (v d : ℝ) :
    ∀ m : List (ℕ × ℝ), lookupD (updD m k v) k d = v := by
  intro m
  induction m with
  | nil => simp [updD, lookupD]
  | cons p rest ih =>
    obtain ⟨k2, v2⟩ := p
    by_cases h : k2 = k
    · simp [updD, lookupD, h]
    · simp [updD, lookupD, h, ih]

lemma lookupD_updD_ne (k k2 : ℕ) (v d : ℝ) (h : k2 ≠ k) :
    ∀ m : List (ℕ × ℝ), lookupD (updD m k v) k2 d = lookupD m k2 d := by
  have hne : ¬ (k = k2) := fun he => h he.symm
  intro m
  induction m with
  | nil => simp [updD, lookupD, hne]
  | cons p rest ih =>
    obtain ⟨k3, v3⟩ := p
    by_cases h3 : k3 = k
    · subst h3
      simp [updD, lookupD, hne]
    · simp [updD, lookupD, h3, ih]

lemma mem_keys_updD (k k2 : ℕ) (v : ℝ) :
    ∀ m : List (ℕ × ℝ),
      k2 ∈ (updD m k v).map Prod.fst ↔ k2 = k ∨ k2 ∈ m.map Prod.fst := by
  intro m
  induction m with
  | nil => simp [updD]
  | cons p rest ih =>
    obtain ⟨k3, v3⟩ := p
    by_cases h3 : k3 = k
    · subst h3
      simp [updD]
    · simp only [updD, h3, if_false, List.map_cons, List.mem_cons, ih]
      tauto

lemma lookupD_of_not_mem_keys (k : ℕ) (d : ℝ) :
    ∀ m : List (ℕ × ℝ), k ∉ m.map Prod.fst → lookupD m k d = d := by
  intro m
  induction m with
  | nil => simp [lookupD]
  | cons p rest ih =>
    obtain ⟨k2, v2⟩ := p
    intro h
    simp only [List.map_cons, List.mem_cons] at h
    push_neg at h
    have hne : ¬ (k2 = k) := fun he => h.1 he.symm
    simp [lookupD, hne, ih h.2]

lemma mem_of_lookupD (k : ℕ) (d : ℝ) :
    ∀ m : List (ℕ × ℝ), k ∈ m.map Prod.fst → (k, lookupD m k d) ∈ m := by
  intro m
  induction m with
  | nil => simp
  | cons p rest ih =>
    obtain ⟨k2, v2⟩ := p
    intro h
    by_cases h2 : k2 = k
    · subst h2
      simp [lookupD]
    · simp only [List.map_cons, List.mem_cons] at h
      rcases h with h | h
      · exact absurd h.symm h2
      · simp only [lookupD, h2, if_false]
        exact List.mem_cons_of_mem _ (ih h)

/-! ## Boost-loop lemmas -/

lemma boostLoop_lookup_lt (ql : String) :
    ∀ (cs : List Conversation) (i : ℕ) (sc : List (ℕ × ℝ)) (idx : ℕ) (d : ℝ),
      idx < i → lookupD (SearchEngine.boostLoop ql cs i sc) idx d = lookupD sc idx d := by
  intro cs
  induction cs with
  | nil => intro i sc idx d _; rfl
  | cons c rest ih =>
    intro i sc idx d hlt
    rw [SearchEngine.boostLoop]
    rw [ih (i + 1) _ idx d (Nat.lt_succ_of_lt hlt)]
    by_cases h : strIn ql (lowerStr c.title) = true
    · rw [if_pos h, lookupD_updD_ne i idx _ d (Nat.ne_of_lt hlt)]
    · rw [if_neg h]

lemma boostLoop_lookup_get (ql : String) :
    ∀ (cs : List Conversation) (i : ℕ) (sc : List (ℕ × ℝ)) (idx : ℕ),
      idx < cs.length →
      lookupD (SearchEngine.boostLoop ql cs i sc) (i + idx) 0 =
        if strIn ql (lowerStr ((cs.getD idx convDefault).title)) then
          lookupD sc (i + idx) 0 * 2
        else lookupD sc (i + idx) 0 := by
  intro cs
  induction cs with
  | nil => intro i sc idx h; exact absurd h (by simp)
  | cons c rest ih =>
    intro i sc idx h
    cases idx with
    | zero =>
      rw [SearchEngine.boostLoop]
      rw [boostLoop_lookup_lt ql rest (i + 1) _ (i + 0) 0 (by omega)]
      by_cases hm : strIn ql (lowerStr c.title) = true
      · rw [if_pos hm]
        simp only [Nat.add_zero, List.getD_cons_zero, hm, if_true]
        exact lookupD_updD_self i _ 0 sc
      · rw [if_neg hm]
        simp only [Nat.add_zero, List.getD_cons_zero]
        rw [if_neg hm]
    | succ idx2 =>
      rw [SearchEngine.boostLoop]
      have harith : i + (idx2 + 1) = (i + 1) + idx2 := by omega
      rw [harith, ih (i + 1) _ idx2 (by simpa using h)]
      simp only [List.getD_cons_succ]
      by_cases hm : strIn ql (lowerStr c.title) = true
      · rw [if_pos hm]
        by_cases hm2 : strIn ql (lowerStr ((rest.getD idx2 convDefault).title)) = true
        · rw [if_pos hm2, if_pos hm2,
            lookupD_updD_ne i _ _ 0 (by omega)]
        · rw [if_neg hm2, if_neg hm2,
            lookupD_updD_ne i _ _ 0 (by omega)]
      · rw [if_neg hm]

lemma mem_keys_boostLoop_mono (ql : String) :
    ∀ (cs : List Conversation) (i : ℕ) (sc : List (ℕ × ℝ)) (k : ℕ),
      k ∈ sc.map Prod.fst → k ∈ (SearchEngine.boostLoop ql cs i sc).map Prod.fst := by
  intro cs
  induction cs with
  | nil => intro i sc k h; exact h
  | cons c rest ih =>
    intro i sc k h
    rw [SearchEngine.boostLoop]
    apply ih
    by_cases hm : strIn ql (lowerStr c.title) = true
    · rw [if_pos hm, mem_keys_updD]
      right; exact h
    · rw [if_neg hm]; exact h

lemma mem_keys_boostLoop_hit (ql : String) :
    ∀ (cs : List Conversation) (i : ℕ) (sc : List (ℕ × ℝ)) (idx : ℕ),
      idx < cs.length →
      strIn ql (lowerStr ((cs.getD idx convDefault).title)) = true →
      (i + idx) ∈ (SearchEngine.boostLoop ql cs i sc).map Prod.fst := by
  intro cs
  induction cs with
  | nil => intro i sc idx h; exact absurd h (by simp)
  | cons c rest ih =>
    intro i sc idx h hm
    cases idx with
    | zero =>
      simp only [List.getD_cons_zero] at hm
      rw [SearchEngine.boostLoop, if_pos hm]
      apply mem_keys_boostLoop_mono
      rw [mem_keys_updD]
      left; omega
    | succ idx2 =>
      rw [SearchEngine.boostLoop]
      have harith : i + (idx2 + 1) = (i + 1) + idx2 := by omega
      rw [harith]
      exact ih (i + 1) _ idx2 (by simpa using h) (by simpa using hm)

/-! ## Ranking-loop lemmas -/

lemma rankLoop_sublist (keep : ℕ × ℝ → Bool) :
    ∀ (l : List (ℕ × ℝ)) (lim : ℕ), (rankLoop keep lim l).Sublist l := by
  intro l
  induction l with
  | nil => intro lim; simp [rankLoop]
  | cons p rest ih =>
    intro lim
    rw [rankLoop]
    by_cases hk : keep p = true
    · rw [if_pos hk]
      by_cases hl : lim ≤ 1
      · rw [if_pos hl]
        exact (List.nil_sublist rest).cons₂ p
      · rw [if_neg hl]
        exact (ih (lim - 1)).cons₂ p
    · rw [if_neg hk]
      exact (ih lim).cons p

lemma rankLoop_eq_take_filter (keep : ℕ × ℝ → Bool) :
    ∀ (l : List (ℕ × ℝ)) (lim : ℕ), 1 ≤ lim →
      rankLoop keep lim l = (l.filter keep).take lim := by
  intro l
  induction l with
  | nil => intro lim _; simp [rankLoop]
  | cons p rest ih =>
    intro lim hlim
    rw [rankLoop, List.filter_cons]
    by_cases hk : keep p = true
    · rw [if_pos hk, if_pos hk]
      by_cases hl : lim ≤ 1
      · have : lim = 1 := by omega
        subst this
        simp
      · rw [if_neg hl]
        obtain ⟨lim2, rfl⟩ : ∃ n, lim = n + 1 := ⟨lim - 1, by omega⟩
        rw [List.take_succ_cons]
        have h21 : lim2 + 1 - 1 = lim2 := by omega
        rw [h21, ih lim2 (by omega)]
    · rw [if_neg hk, if_neg hk]
      exact ih lim hlim

/-! ## Keys of the accumulation stage -/

lemma mem_keys_postLoop (idfv : ℝ) :
    ∀ (ps : List (ℕ × ℝ)) (sc : List (ℕ × ℝ)) (k : ℕ),
      k ∈ (SearchEngine.postLoop idfv ps sc).map Prod.fst →
      k ∈ sc.map Prod.fst ∨ k ∈ ps.map Prod.fst := by
  intro ps
  induction ps with
  | nil => intro sc k h; exact Or.inl h
  | cons p rest ih =>
    intro sc k h
    rw [SearchEngine.postLoop] at h
    rcases ih _ k h with h2 | h2
    · rcases (mem_keys_updD p.1 k _ sc).mp h2 with h3 | h3
      · right; simp [h3]
      · left; exact h3
    · right; exact List.mem_cons_of_mem _ h2

lemma mem_keys_scoreLoop (E : SearchEngine) :
    ∀ (ts : List String) (sc : List (ℕ × ℝ)) (k : ℕ),
      k ∈ (E.scoreLoop ts sc).map Prod.fst →
      k ∈ sc.map Prod.fst ∨ ∃ t ∈ ts, k ∈ (E.postings t).map Prod.fst := by
  intro ts
  induction ts with
  | nil => intro sc k h; exact Or.inl h
  | cons t rest ih =>
    intro sc k h
    rw [SearchEngine.scoreLoop] at h
    rcases ih _ k h with h2 | h2
    · rcases mem_keys_postLoop (E.idf t) (E.postings t) sc k h2 with h3 | h3
      · left; exact h3
      · right; exact ⟨t, List.mem_cons_self t rest, h3⟩
    · obtain ⟨t2, ht2, hk⟩ := h2
      right; exact ⟨t2, List.mem_cons_of_mem t ht2, hk⟩

lemma mem_keys_postings (E : SearchEngine) (t : String) (k : ℕ)
    (h : k ∈ (E.postings t).map Prod.fst) : (E.docTokens k).count t ≠ 0 := by
  rw [SearchEngine.postings] at h
  obtain ⟨p, hp, hfst⟩ := List.mem_map.mp h
  obtain ⟨idx, _, hsome⟩ := List.mem_filterMap.mp hp
  by_cases hc : (E.docTokens idx).count t ≠ 0
  · rw [if_pos hc] at hsome
    obtain rfl := Option.some.inj hsome
    subst hfst
    exact hc
  · rw [if_neg hc] at hsome
    exact absurd hsome (by simp)

/-! ## Search pipeline lemmas -/

/-- With no date bounds, the per-result date test always passes. -/
lemma keepB_none_none (ts : ℚ) : keepB none none ts = true := rfl

lemma searchIdx_sorted (E : SearchEngine) (q : String) (lim : ℕ)
    (df dt : Option String) :
    (E.searchIdx q lim df dt).Pairwise (fun a b => b.2 ≤ a.2) := by
  rw [SearchEngine.searchIdx]
  by_cases hq : tokenize q = []
  · rw [if_pos hq]; simp
  · rw [if_neg hq]
    exact (sortDescBy_sorted Prod.snd (E.boostedScores q)).sublist
      (rankLoop_sublist _ _ lim)

lemma searchIdx_stable (E : SearchEngine) (q : String) (lim : ℕ)
    (df dt : Option String) :
    (E.searchIdx q lim df dt).Pairwise
      (fun a b => a.2 = b.2 → List.Sublist [a, b] (E.boostedScores q)) := by
  rw [SearchEngine.searchIdx]
  by_cases hq : tokenize q = []
  · rw [if_pos hq]; simp
  · rw [if_neg hq]
    have hin : (E.boostedScores q).Pairwise
        (fun a b => Prod.snd a = Prod.snd b → List.Sublist [a, b] (E.boostedScores q)) := by
      refine (pairwise_pair_sublist (E.boostedScores q)).imp ?_
      intro a b h _
      exact h
    have hsorted := sortDescBy_stable Prod.snd
      (fun a b => List.Sublist [a, b] (E.boostedScores q)) (E.boostedScores q) hin
    exact hsorted.sublist (rankLoop_sublist _ _ lim)

/-! ## Claim C1 (corrected) -/

/-- C1 (amended): for every engine, query, limit and date filters, the
result of `search` is sorted by score in descending order; and two
returned entries with equal scores appear in the order in which their
entries were first inserted into the score dict (i.e. their order in the
boosted score list), which is query-token order then posting-list order
— not, in general, Collection order. -/
theorem C1_ranking_sorted_and_stable :
    (∀ (E : SearchEngine) (q : String) (lim : ℕ) (df dt : Option String),
      (E.search q lim df dt).Pairwise (fun a b => b.2 ≤ a.2))
    ∧ (∀ (E : SearchEngine) (q : String) (lim : ℕ) (df dt : Option String),
      (E.searchIdx q lim df dt).Pairwise
        (fun a b => a.2 = b.2 → List.Sublist [a, b] (E.boostedScores q))) := by
  constructor
  · intro E q lim df dt
    rw [SearchEngine.search, List.pairwise_map]
    exact searchIdx_sorted E q lim df dt
  · intro E q lim df dt
    exact searchIdx_stable E q lim df dt

/-! ## Claim C5 -/

/-- C5: every indexed term's stored IDF is `ln((N+1)/(df+1)) + 1`, and
IDF is strictly antitone in document frequency over a fixed corpus. -/
theorem C5_idf_formula_and_monotone :
    (∀ (E : SearchEngine) (t : String), E.docFreq t ≠ 0 →
      E.idf t =
        Real.log (((E.nDocs + 1 : ℕ) : ℝ) / ((E.docFreq t + 1 : ℕ) : ℝ)) + 1)
    ∧ (∀ (E : SearchEngine) (t1 t2 : String),
        1 ≤ E.docFreq t1 → E.docFreq t1 < E.docFreq t2 →
        E.idf t2 < E.idf t1) := by
  constructor
  · intro E t h
    rw [SearchEngine.idf, if_neg h]
  · intro E t1 t2 h1 h12
    have hne1 : E.docFreq t1 ≠ 0 := by omega
    have hne2 : E.docFreq t2 ≠ 0 := by omega
    rw [SearchEngine.idf, if_neg hne2, SearchEngine.idf, if_neg hne1]
    have ha : (0 : ℝ) < ((E.nDocs + 1 : ℕ) : ℝ) := by positivity
    have hx : (0 : ℝ) < ((E.docFreq t1 + 1 : ℕ) : ℝ) := by positivity
    have hxy : ((E.docFreq t1 + 1 : ℕ) : ℝ) < ((E.docFreq t2 + 1 : ℕ) : ℝ) := by
      exact_mod_cast by omega
    have hdiv : ((E.nDocs + 1 : ℕ) : ℝ) / ((E.docFreq t2 + 1 : ℕ) : ℝ) <
        ((E.nDocs + 1 : ℕ) : ℝ) / ((E.docFreq t1 + 1 : ℕ) : ℝ) :=
      div_lt_div_of_pos_left ha hx hxy
    have hpos : (0 : ℝ) < ((E.nDocs + 1 : ℕ) : ℝ) / ((E.docFreq t2 + 1 : ℕ) : ℝ) :=
      div_pos ha (lt_trans hx hxy)
    exact add_lt_add_right (Real.log_lt_log hpos hdiv) 1

/-- A two-conversation corpus where "apple" occurs in one conversation
and "banana" in both. -/
def exE5 : SearchEngine :=
  ⟨[{ id := "c0", title := "t",
      messages := [{ role := "user", text := "apple banana" }] },
    { id := "c1", title := "u",
      messages := [{ role := "user", text := "banana coconut" }] }]⟩

/-- Witness for C5 at the concrete corpus `exE5`:
`df("apple") = 1 < 2 = df("banana")`, hence
`idf("banana") < idf("apple")`. -/
theorem C5_idf_witness :
    exE5.docFreq "apple" ≠ 0
    ∧ 1 ≤ exE5.docFreq "apple"
    ∧ exE5.docFreq "apple" < exE5.docFreq "banana"
    ∧ exE5.idf "apple" =
        Real.log (((exE5.nDocs + 1 : ℕ) : ℝ) / ((exE5.docFreq "apple" + 1 : ℕ) : ℝ)) + 1
    ∧ exE5.idf "banana" < exE5.idf "apple" :=
  ⟨by decide, by decide, by decide,
   C5_idf_formula_and_monotone.1 exE5 "apple" (by decide),
   C5_idf_formula_and_monotone.2 exE5 "apple" "banana" (by decide) (by decide)⟩

/-! ## Claim C2 -/

/-- C2: in every search, the title boost multiplies the accumulated
TF-IDF score of a title-matching conversation by exactly `2.0` (a
missing accumulated score counts as `0`), leaves non-matching
conversations untouched, and in particular a conversation with zero
accumulated score and a title match still has score zero after the
boost. -/
theorem C2_title_boost :
    ∀ (E : SearchEngine) (q : String) (idx : ℕ), idx < E.conversations.length →
      (strIn (lowerStr q) (lowerStr ((E.conversations.getD idx convDefault).title)) = true →
        lookupD (E.boostedScores q) idx 0 = lookupD (E.tokenizedScores q) idx 0 * 2)
      ∧ (strIn (lowerStr q) (lowerStr ((E.conversations.getD idx convDefault).title)) = false →
        lookupD (E.boostedScores q) idx 0 = lookupD (E.tokenizedScores q) idx 0)
      ∧ (strIn (lowerStr q) (lowerStr ((E.conversations.getD idx convDefault).title)) = true →
        lookupD (E.tokenizedScores q) idx 0 = 0 →
        lookupD (E.boostedScores q) idx 0 = 0) := by
  intro E q idx hlen
  have hget := boostLoop_lookup_get (lowerStr q) E.conversations 0
    (E.tokenizedScores q) idx hlen
  rw [Nat.zero_add] at hget
  refine ⟨?_, ?_, ?_⟩
  · intro hm
    rw [SearchEngine.boostedScores, hget, if_pos hm]
  · intro hm
    rw [SearchEngine.boostedScores, hget, if_neg (ne_true_of_eq_false hm)]
  · intro hm hzero
    rw [SearchEngine.boostedScores, hget, if_pos hm, hzero, zero_mul]

/-- A one-conversation corpus whose title matches the query
"python tip" as a substring, with a non-zero accumulated score. -/
def exE2 : SearchEngine :=
  ⟨[{ id := "c0", title := "Python Tips",
      messages := [{ role := "user", text := "hello" }] }]⟩

/-- A one-conversation corpus where the query "aceca" is a substring of
the title "racecar" but shares no token with the conversation. -/
def exE2b : SearchEngine :=
  ⟨[{ id := "c0", title := "racecar",
      messages := [{ role := "user", text := "zzz" }] }]⟩

/-- Witness for C2 at the concrete corpora `exE2` and `exE2b`: a
title-matching conversation's score is doubled, and a title-matching
conversation with zero accumulated score stays at zero. -/
theorem C2_title_boost_witness :
    strIn (lowerStr "python tip")
      (lowerStr ((exE2.conversations.getD 0 convDefault).title)) = true
    ∧ lookupD (exE2.boostedScores "python tip") 0 0 =
        lookupD (exE2.tokenizedScores "python tip") 0 0 * 2
    ∧ lookupD (exE2b.tokenizedScores "aceca") 0 0 = 0
    ∧ lookupD (exE2b.boostedScores "aceca") 0 0 = 0 :=
  ⟨by decide,
   (C2_title_boost exE2 "python tip" 0 (by decide)).1 (by decide),
   rfl,
   (C2_title_boost exE2b "aceca" 0 (by decide)).2.2 (by decide) rfl⟩

/-! ## Claim C10 -/

/-- C10: a conversation sharing no token with the query but whose
lowercased title contains the lowercased query as a substring is
included in the results with score exactly `0`, and the result list is
sorted descending, so it comes after every positive-score entry
(stated here with absent date bounds and a limit at least the number of
scored conversations, matching the claim's "subject to the date filter
and the limit"). -/
theorem C10_title_only_zero_included :
    ∀ (E : SearchEngine) (q : String) (idx lim : ℕ),
      tokenize q ≠ [] →
      idx < E.conversations.length →
      (∀ t ∈ tokenize q, (E.docTokens idx).count t = 0) →
      strIn (lowerStr q) (lowerStr ((E.conversations.getD idx convDefault).title)) = true →
      (E.boostedScores q).length ≤ lim →
      ((idx, (0 : ℝ)) ∈ E.searchIdx q lim none none
       ∧ (E.conversations.getD idx convDefault, (0 : ℝ)) ∈ E.search q lim none none
       ∧ (E.searchIdx q lim none none).Pairwise (fun a b => b.2 ≤ a.2)) := by
  intro E q idx lim hq hlen htok hm hlim
  have hnotkey : idx ∉ (E.tokenizedScores q).map Prod.fst := by
    intro hk
    rw [SearchEngine.tokenizedScores] at hk
    rcases mem_keys_scoreLoop E (tokenize q) [] idx hk with h0 | ⟨t, ht, hk2⟩
    · simp at h0
    · exact (mem_keys_postings E t idx hk2) (htok t ht)
  have hz : lookupD (E.tokenizedScores q) idx 0 = 0 :=
    lookupD_of_not_mem_keys idx 0 _ hnotkey
  have hget := boostLoop_lookup_get (lowerStr q) E.conversations 0
    (E.tokenizedScores q) idx hlen
  rw [Nat.zero_add] at hget
  have hb0 : lookupD (E.boostedScores q) idx 0 = 0 := by
    rw [SearchEngine.boostedScores, hget, if_pos hm, hz, zero_mul]
  have hkey : idx ∈ (E.boostedScores q).map Prod.fst := by
    rw [SearchEngine.boostedScores]
    have hh := mem_keys_boostLoop_hit (lowerStr q) E.conversations 0
      (E.tokenizedScores q) idx hlen hm
    rwa [Nat.zero_add] at hh
  have hmem : (idx, (0 : ℝ)) ∈ E.boostedScores q := by
    have hh := mem_of_lookupD idx 0 _ hkey
    rwa [hb0] at hh
  have hmem2 : (idx, (0 : ℝ)) ∈ sortDescBy Prod.snd (E.boostedScores q) :=
    ((sortDescBy_perm Prod.snd _).mem_iff).mpr hmem
  have hlim1 : 1 ≤ lim := by
    have hne : (E.boostedScores q).length ≠ 0 := by
      intro h0
      rw [List.length_eq_zero] at h0
      rw [h0] at hkey
      simp at hkey
    omega
  have heq : E.searchIdx q lim none none = sortDescBy Prod.snd (E.boostedScores q) := by
    rw [SearchEngine.searchIdx, if_neg hq, rankLoop_eq_take_filter _ _ lim hlim1]
    have hfil : (sortDescBy Prod.snd (E.boostedScores q)).filter
        (fun p => keepB (SearchEngine.parsedBound none) (SearchEngine.parsedBound none)
          (tsOf (E.conversations.getD p.1 convDefault))) =
        sortDescBy Prod.snd (E.boostedScores q) :=
      List.filter_eq_self.mpr (fun a _ => keepB_none_none _)
    rw [hfil]
    exact List.take_of_length_le
      (le_trans (le_of_eq ((sortDescBy_perm Prod.snd _).length_eq)) hlim)
  refine ⟨?_, ?_, searchIdx_sorted E q lim none none⟩
  · rw [heq]
    exact hmem2
  · rw [SearchEngine.search]
    exact List.mem_map_of_mem _ (heq ▸ hmem2)

/-- Witness for C10 at the concrete corpus `exE2b`: query "aceca" shares
no token with the conversation but is a substring of its title
"racecar"; the conversation is returned with score `0`. -/
theorem C10_title_only_zero_witness :
    tokenize "aceca" ≠ []
    ∧ (∀ t ∈ tokenize "aceca", (exE2b.docTokens 0).count t = 0)
    ∧ strIn (lowerStr "aceca")
        (lowerStr ((exE2b.conversations.getD 0 convDefault).title)) = true
    ∧ (exE2b.boostedScores "aceca").length ≤ 10
    ∧ (0, (0 : ℝ)) ∈ exE2b.searchIdx "aceca" 10 none none :=
  ⟨by decide, by decide, by decide, by decide,
   (C10_title_only_zero_included exE2b "aceca" 0 10 (by decide) (by decide)
     (by decide) (by decide) (by decide)).1⟩

/-! ## Counterexamples to the Collection-order tie-break (C1, C8) -/

/-- Collection entry 0: newest, contains token "y". -/
def exC1a : Conversation :=
  { id := "c0", title := "t0", create_time := some 100,
    messages := [{ role := "user", text := "y" }] }

/-- Collection entry 1: older, contains token "x". -/
def exC1b : Conversation :=
  { id := "c1", title := "t1", create_time := some 50,
    messages := [{ role := "user", text := "x" }] }

/-- A two-conversation engine whose Collection is in sorted order. -/
def exE1 : SearchEngine := ⟨[exC1a, exC1b]⟩

/-- The common score of both conversations for the query "x y"
(each matches exactly one of the two equally rare query tokens with the
same term frequency). -/
noncomputable def exC1s : ℝ := lookupD (exE1.boostedScores "x y") 1 0

/-- Counterexample to C1's tie-break clause: for the query "x y" both
conversations receive the same score `exC1s`, yet the result lists the
conversation at Collection position 1 before the one at position 0,
because the score dict was populated in query-token order ("x" hits
document 1 first). -/
theorem C1_tie_order_counterexample :
    exE1.conversations = [exC1a, exC1b]
    ∧ convKey exC1b ≤ convKey exC1a
    ∧ exE1.search "x y" 10 none none = [(exC1b, exC1s), (exC1a, exC1s)] := by
  refine ⟨rfl, by decide, ?_⟩
  have hb : exE1.boostedScores "x y" = [(1, exC1s), (0, exC1s)] := rfl
  have hs : sortDescBy Prod.snd (exE1.boostedScores "x y") = [(1, exC1s), (0, exC1s)] := by
    rw [hb]
    show insortBy Prod.snd (1, exC1s) (insortBy Prod.snd (0, exC1s) []) = _
    rw [show insortBy Prod.snd (0, exC1s) ([] : List (ℕ × ℝ)) = [(0, exC1s)] from rfl]
    exact insortBy_not_lt Prod.snd (1, exC1s) (0, exC1s) [] (lt_irrefl exC1s)
  rw [SearchEngine.search, SearchEngine.searchIdx,
    if_neg (show ¬ tokenize "x y" = [] by decide), hs]
  rfl

/-- Collection entry 0 for the C8 counterexample: newest, token "q". -/
def exC8a : Conversation :=
  { id := "d0", title := "s0", create_time := some 200,
    messages := [{ role := "user", text := "q" }] }

/-- Collection entry 1 for the C8 counterexample: older, token "p". -/
def exC8b : Conversation :=
  { id := "d1", title := "s1", create_time := some 60,
    messages := [{ role := "user", text := "p" }] }

def exE8 : SearchEngine := ⟨[exC8a, exC8b]⟩

noncomputable def exC8s : ℝ := lookupD (exE8.boostedScores "p q") 1 0

/-- Counterexample to C8's claim that the Collection ordering is the
score tie-break: the Collection `[exC8a, exC8b]` is sorted newest-first,
both conversations score `exC8s` for the query "p q", yet the search
returns the older conversation first. -/
theorem C8_tiebreak_counterexample :
    exE8.conversations.Pairwise (fun a b => convKey b ≤ convKey a)
    ∧ exE8.conversations = [exC8a, exC8b]
    ∧ exE8.search "p q" 10 none none = [(exC8b, exC8s), (exC8a, exC8s)] := by
  refine ⟨by decide, rfl, ?_⟩
  have hb : exE8.boostedScores "p q" = [(1, exC8s), (0, exC8s)] := rfl
  have hs : sortDescBy Prod.snd (exE8.boostedScores "p q") = [(1, exC8s), (0, exC8s)] := by
    rw [hb]
    show insortBy Prod.snd (1, exC8s) (insortBy Prod.snd (0, exC8s) []) = _
    rw [show insortBy Prod.snd (0, exC8s) ([] : List (ℕ × ℝ)) = [(0, exC8s)] from rfl]
    exact insortBy_not_lt Prod.snd (1, exC8s) (0, exC8s) [] (lt_irrefl exC8s)
  rw [SearchEngine.search, SearchEngine.searchIdx,
    if_neg (show ¬ tokenize "p q" = [] by decide), hs]
  rfl

/-! ## Claim C3 (corrected) -/

/-- C3 (amended): an unparsable date bound behaves exactly as an absent
bound (never an error); for a non-empty query and positive limit the
results are exactly the date-surviving prefix of the sorted scores up to
the limit; a bound whose parse is non-zero excludes exactly the
conversations strictly before `date_from` (resp. strictly after
`date_to`); but a bound parsing to epoch `0` ("1970-01-01") is falsy in
Python and disables that bound's filter; and the documented example
date parses to its UTC-midnight epoch seconds. -/
theorem C3_date_filter_behavior :
    (∀ (E : SearchEngine) (q : String) (lim : ℕ) (ds : String) (dt : Option String),
      parseDate ds = none →
      E.search q lim (some ds) dt = E.search q lim none dt)
    ∧ (∀ (E : SearchEngine) (q : String) (lim : ℕ) (df : Option String) (ds : String),
      parseDate ds = none →
      E.search q lim df (some ds) = E.search q lim df none)
    ∧ (∀ (E : SearchEngine) (q : String) (lim : ℕ) (df dt : Option String),
      tokenize q ≠ [] → 1 ≤ lim →
      E.searchIdx q lim df dt =
        ((sortDescBy Prod.snd (E.boostedScores q)).filter
          (fun p => keepB (SearchEngine.parsedBound df) (SearchEngine.parsedBound dt)
            (tsOf (E.conversations.getD p.1 convDefault)))).take lim)
    ∧ (∀ (v ts : ℚ), v ≠ 0 → (keepB (some v) none ts = true ↔ ¬ ts < v))
    ∧ (∀ ts : ℚ, keepB (some 0) none ts = true)
    ∧ (∀ (w ts : ℚ), w ≠ 0 → (keepB none (some w) ts = true ↔ ¬ w < ts))
    ∧ (∀ ts : ℚ, keepB none (some 0) ts = true)
    ∧ (∀ (f t : Option ℚ) (ts : ℚ),
        keepB f t ts = (keepB f none ts && keepB none t ts))
    ∧ parseDate "2024-03-01" = some 1709251200 := by
  have hpbn : SearchEngine.parsedBound none = none := rfl
  refine ⟨?_, ?_, ?_, ?_, ?_, ?_, ?_, ?_, by decide⟩
  · intro E q lim ds dt h
    have hpb : SearchEngine.parsedBound (some ds) = none := by
      rw [SearchEngine.parsedBound]
      by_cases he : ds = ""
      · rw [if_pos he]
      · rw [if_neg he, h]
    simp only [SearchEngine.search, SearchEngine.searchIdx, hpb, hpbn]
  · intro E q lim df ds h
    have hpb : SearchEngine.parsedBound (some ds) = none := by
      rw [SearchEngine.parsedBound]
      by_cases he : ds = ""
      · rw [if_pos he]
      · rw [if_neg he, h]
    simp only [SearchEngine.search, SearchEngine.searchIdx, hpb, hpbn]
  · intro E q lim df dt htok hlim
    rw [SearchEngine.searchIdx, if_neg htok]
    exact rankLoop_eq_take_filter _ _ lim hlim
  · intro v ts hv
    simp [keepB, tsTruthy, hv]
  · intro ts
    simp [keepB, tsTruthy]
  · intro w ts hw
    simp [keepB, tsTruthy, hw]
  · intro ts
    simp [keepB, tsTruthy]
  · intro f t ts
    cases f <;> cases t <;> simp [keepB, tsTruthy]

/-- Witness for C3 at concrete inputs: an unparsable bound leaves the
search unchanged, the pipeline equation holds at `exE2`, and a negative
timestamp against the non-zero bound `-3` is governed by the strict
comparison. -/
theorem C3_date_filter_witness :
    parseDate "not-a-date" = none
    ∧ exE2.search "hello" 7 (some "not-a-date") none = exE2.search "hello" 7 none none
    ∧ tokenize "hello" ≠ []
    ∧ (1 : ℕ) ≤ 7
    ∧ exE2.searchIdx "hello" 7 none none =
        ((sortDescBy Prod.snd (exE2.boostedScores "hello")).filter
          (fun p => keepB (SearchEngine.parsedBound none) (SearchEngine.parsedBound none)
            (tsOf (exE2.conversations.getD p.1 convDefault)))).take 7
    ∧ ((-3 : ℚ) ≠ 0)
    ∧ (keepB (some (-3)) none (-5) = true ↔ ¬ (-5 : ℚ) < (-3)) :=
  ⟨by decide,
   C3_date_filter_behavior.1 exE2 "hello" 7 "not-a-date" none (by decide),
   by decide, by decide,
   C3_date_filter_behavior.2.2.1 exE2 "hello" 7 none none (by decide) (by decide),
   by decide,
   C3_date_filter_behavior.2.2.2.1 (-3) (-5) (by decide)⟩

/-- The conversation for the truthiness counterexample: a (synthetic)
negative create time, strictly before the epoch. -/
def exC3conv : Conversation :=
  { id := "c0", title := "t0", create_time := some (-5),
    messages := [{ role := "user", text := "hello" }] }

def exE3 : SearchEngine := ⟨[exC3conv]⟩

/-- Counterexample to C3 as stated: `date_from = "1970-01-01"` parses to
epoch `0`, and the conversation's create time `-5` falls strictly before
it, so the claim requires exclusion — but `0.0` is falsy in Python, the
bound is ignored, and the conversation is returned. -/
theorem C3_truthiness_counterexample :
    parseDate "1970-01-01" = some 0
    ∧ tsOf exC3conv < 0
    ∧ (exE3.search "hello" 10 (some "1970-01-01") none).map Prod.fst = [exC3conv] :=
  ⟨by decide, by decide, rfl⟩

end ChatGPTHistory
